import Mathlib

/-!
# Time-expanded transit graph builders: a shallow embedding

This file embeds the two data-preparation programs of the
`hcmc-transit-accessibility` repository —
`src/01_data_preparation/link_generator.py` (the four link builders and
the driver `create_link_table_memory_optimized`) and
`src/01_data_preparation/node_generator.py` (per-trip event emission in
`process_route_variant`) — and proves properties of the embedded
definitions.

Modelling conventions:
* CSV integer columns (`NodeId`, `RouteId`, `TripId`, `StopId`,
  `Timestamp`, link ids and durations) are `ℤ`.
* Python floats (haversine distances, walking speed, average speed,
  intermediate times) are `ℚ`.  The haversine function itself is
  trigonometric and is therefore a parameter `hav` of the walk-link
  builder; every other arithmetic step is embedded exactly.
* `pandas.groupby` sorts group keys ascending and keeps the original row
  order inside each group; `sort_values('Timestamp')` is a sort by
  timestamp.  Both are embedded with an insertion sort (stable, ties
  keep the original order).
* Writing a CSV chunk to the output file only concatenates the emitted
  rows, and the bus/wait/transfer builders cannot fail mid-run, so they
  are embedded as pure producers of their full link list.  The walk
  builder can fail (an unguarded `stop_info[...]` dict lookup), so its
  embedding tracks the file contents and the 50 000-row chunk buffer and
  returns `Except`, the error carrying the file contents at the moment
  the lookup fails.
-/

/-- The `Event` column of a node-table row. -/
inductive EventKind where
  | arrival
  | departure
  deriving DecidableEq, Repr

/-- The `mode` column of a link-table row. -/
inductive Mode where
  | bus
  | wait
  | transfer
  | walk
  deriving DecidableEq, Repr

/-- One row of the node table, restricted to the columns that the link
generator reads.  (`RouteNo`, `RouteVarId`, `Time`, `StopName` and
`Attributes` are carried through the CSV but never read by any link
builder.) -/
structure Node where
  NodeId : ℤ
  RouteId : ℤ
  TripId : ℤ
  StopId : ℤ
  Timestamp : ℤ
  Event : EventKind
  deriving DecidableEq, Repr

/-- One row of the link table: `link_id,from_node,to_node,duration,mode`. -/
structure Link where
  link_id : ℤ
  from_node : ℤ
  to_node : ℤ
  duration : ℤ
  mode : Mode
  deriving DecidableEq, Repr

/-- A link before its `link_id` is assigned.  The source interleaves id
assignment with generation; splitting the two is arithmetically
identical and keeps the generation loops pure. -/
structure RawLink where
  from_node : ℤ
  to_node : ℤ
  duration : ℤ
  mode : Mode
  deriving DecidableEq, Repr

/-- An entry of the `stop_info` dictionary built by `load_stop_info`:
coordinates and the set of routes serving the stop.  (`Name` is stored
but never used by the builders.)  `load_stop_info` fills `stop_routes`
with exactly the same route sets, so one table serves for both. -/
structure StopRec where
  Lat : ℚ
  Lng : ℚ
  Routes : List ℤ
  deriving DecidableEq, Repr

/-- The `CONFIG` dictionary of `link_generator.py` (possibly updated by
the `config` argument of `create_link_table_memory_optimized`). -/
structure Config where
  WALKING_RADIUS : ℚ
  MAX_WALK_WAIT_TIME : ℚ
  WALKING_SPEED : ℚ
  MAX_TRANSFER_TIME : ℚ
  MIN_TRANSFER_TIME : ℚ
  deriving DecidableEq, Repr

/-- The default `CONFIG` values of `link_generator.py`. -/
def defaultCONFIG : Config :=
  { WALKING_RADIUS := 400
    MAX_WALK_WAIT_TIME := 3600
    WALKING_SPEED := 6/5
    MAX_TRANSFER_TIME := 1800
    MIN_TRANSFER_TIME := 120 }

/-- `node_df['Event'] == 'ARRIVAL'` as a row predicate. -/
def Node.isArrival (n : Node) : Bool :=
  match n.Event with
  | .arrival => true
  | .departure => false

/-- `node_df['Event'] == 'DEPARTURE'` as a row predicate. -/
def Node.isDeparture (n : Node) : Bool :=
  match n.Event with
  | .arrival => false
  | .departure => true

/-- `sort_values('Timestamp')`: stable sort of rows by timestamp. -/
def sortByTimestamp (l : List Node) : List Node :=
  List.insertionSort (fun a b : Node => a.Timestamp ≤ b.Timestamp) l

/-- Lexicographic order on pair group keys (pandas sorts group keys
ascending). -/
def pairLe (p q : ℤ × ℤ) : Prop :=
  p.1 < q.1 ∨ (p.1 = q.1 ∧ p.2 ≤ q.2)

instance : DecidableRel pairLe := fun p q => by
  unfold pairLe; infer_instance

/-- The sorted list of distinct pair keys of a `groupby`. -/
def groupKeys2 (key : Node → ℤ × ℤ) (nodes : List Node) : List (ℤ × ℤ) :=
  List.insertionSort pairLe (nodes.map key).dedup

/-- The sorted list of distinct scalar keys of a `groupby`. -/
def groupKeys1 (key : Node → ℤ) (nodes : List Node) : List ℤ :=
  List.insertionSort (fun a b : ℤ => a ≤ b) (nodes.map key).dedup

/-- Assign sequential link ids starting at `startId`, mirroring the
`link_id += 1` counter of every builder loop. -/
def numberLinks (startId : ℤ) : List RawLink → List Link × ℤ
  | [] => ([], startId)
  | r :: rs =>
    let rest := numberLinks (startId + 1) rs
    (⟨startId, r.from_node, r.to_node, r.duration, r.mode⟩ :: rest.1, rest.2)

/-- The links generated by `create_bus_links_to_file`, before id
assignment: group by `(RouteId, TripId)`, sort by timestamp, and for
each DEPARTURE take the first strictly later ARRIVAL of the group,
emitting a link when the gap is under 1800 s. -/
def rawBusLinks (nodes : List Node) : List RawLink :=
  (groupKeys2 (fun n => (n.RouteId, n.TripId)) nodes).flatMap (fun k =>
    let trip_nodes := sortByTimestamp (nodes.filter (fun n => (n.RouteId, n.TripId) == k))
    let departures := trip_nodes.filter Node.isDeparture
    let arrivals := trip_nodes.filter Node.isArrival
    departures.flatMap (fun dep =>
      match (arrivals.filter (fun a => decide (dep.Timestamp < a.Timestamp))).head? with
      | none => []
      | some next_arrival =>
        if next_arrival.Timestamp - dep.Timestamp < 1800 then
          [⟨dep.NodeId, next_arrival.NodeId, next_arrival.Timestamp - dep.Timestamp, Mode.bus⟩]
        else []))

/-- `create_bus_links_to_file`: BUS links with sequential ids. -/
def create_bus_links (nodes : List Node) (start_link_id : ℤ) : List Link × ℤ :=
  numberLinks start_link_id (rawBusLinks nodes)

/-- The links generated by `append_wait_links_to_file`, before id
assignment: group by `(StopId, RouteId)` and pair every ARRIVAL with
every strictly later DEPARTURE of the group. -/
def rawWaitLinks (nodes : List Node) : List RawLink :=
  (groupKeys2 (fun n => (n.StopId, n.RouteId)) nodes).flatMap (fun k =>
    let stop_nodes := nodes.filter (fun n => (n.StopId, n.RouteId) == k)
    let arrivals := sortByTimestamp (stop_nodes.filter Node.isArrival)
    let departures := sortByTimestamp (stop_nodes.filter Node.isDeparture)
    arrivals.flatMap (fun arrival =>
      let future_deps := departures.filter (fun d => decide (arrival.Timestamp < d.Timestamp))
      future_deps.map (fun departure =>
        ⟨arrival.NodeId, departure.NodeId, departure.Timestamp - arrival.Timestamp, Mode.wait⟩)))

/-- `append_wait_links_to_file`: WAIT links with sequential ids. -/
def append_wait_links (nodes : List Node) (start_link_id : ℤ) : List Link × ℤ :=
  numberLinks start_link_id (rawWaitLinks nodes)

/-- The links generated by `append_transfer_links_to_file`, before id
assignment: group by `StopId`; for every ARRIVAL pair with DEPARTUREs of
a different route, strictly later, within `MAX_TRANSFER_TIME`, and keep
those whose delta is at least `MIN_TRANSFER_TIME`. -/
def rawTransferLinks (CONFIG : Config) (nodes : List Node) : List RawLink :=
  (groupKeys1 (fun n => n.StopId) nodes).flatMap (fun stop_id =>
    let stop_nodes := nodes.filter (fun n => n.StopId == stop_id)
    let arrivals := sortByTimestamp (stop_nodes.filter Node.isArrival)
    let departures := sortByTimestamp (stop_nodes.filter Node.isDeparture)
    arrivals.flatMap (fun arrival =>
      let other_route_deps := departures.filter (fun d =>
        d.RouteId != arrival.RouteId &&
        decide (arrival.Timestamp < d.Timestamp) &&
        decide (((d.Timestamp - arrival.Timestamp : ℤ) : ℚ) ≤ CONFIG.MAX_TRANSFER_TIME))
      other_route_deps.flatMap (fun departure =>
        if CONFIG.MIN_TRANSFER_TIME ≤ ((departure.Timestamp - arrival.Timestamp : ℤ) : ℚ) then
          [⟨arrival.NodeId, departure.NodeId, departure.Timestamp - arrival.Timestamp,
            Mode.transfer⟩]
        else [])))

/-- `append_transfer_links_to_file`: TRANSFER links with sequential ids. -/
def append_transfer_links (CONFIG : Config) (nodes : List Node) (start_link_id : ℤ) :
    List Link × ℤ :=
  numberLinks start_link_id (rawTransferLinks CONFIG nodes)

/-- `find_stops_within_radius`: all stops of `stop_info` other than the
center whose haversine distance to the center is at most `radius`,
paired with that distance, in dictionary order. -/
def find_stops_within_radius (hav : ℚ → ℚ → ℚ → ℚ → ℚ) (center_stop_id : ℤ)
    (center : StopRec) (stop_info : List (ℤ × StopRec)) (radius : ℚ) : List (ℤ × ℚ) :=
  stop_info.filterMap (fun p =>
    if p.1 != center_stop_id then
      let distance := hav center.Lat center.Lng p.2.Lat p.2.Lng
      if distance ≤ radius then some (p.1, distance) else none
    else none)

/-- The `stop_routes` defaultdict: route list of a stop, `[]` when the
stop is absent (`load_stop_info` gives it the same route sets as
`stop_info`). -/
def stop_routes (stop_info : List (ℤ × StopRec)) (stop_id : ℤ) : List ℤ :=
  ((List.lookup stop_id stop_info).map StopRec.Routes).getD []

/-- The body of the per-arrival walk-link loop of
`append_walk_links_to_file`.  Returns `none` when the unguarded
`stop_info[arr_stop]` lookup inside `find_stops_within_radius` would
raise `KeyError`. -/
def walkLinksForArrival (hav : ℚ → ℚ → ℚ → ℚ → ℚ) (CONFIG : Config)
    (stop_info : List (ℤ × StopRec)) (all_departures : List Node) (arrival : Node) :
    Option (List RawLink) :=
  match List.lookup arrival.StopId stop_info with
  | none => none
  | some center =>
    some ((find_stops_within_radius hav arrival.StopId center stop_info
            CONFIG.WALKING_RADIUS).flatMap (fun nearby =>
      let walk_time : ℚ := nearby.2 / CONFIG.WALKING_SPEED
      let arr_routes := stop_routes stop_info arrival.StopId
      let nearby_routes := stop_routes stop_info nearby.1
      if arr_routes.any (fun r => nearby_routes.contains r) then []
      else
        let nearby_deps := sortByTimestamp (all_departures.filter (fun d => d.StopId == nearby.1))
        if nearby_deps.isEmpty then []
        else
          let valid_deps := nearby_deps.filter (fun d =>
            decide ((arrival.Timestamp : ℚ) + walk_time ≤ (d.Timestamp : ℚ)) &&
            decide (((d.Timestamp - arrival.Timestamp : ℤ) : ℚ) ≤ CONFIG.MAX_WALK_WAIT_TIME))
          valid_deps.map (fun departure =>
            ⟨arrival.NodeId, departure.NodeId, departure.Timestamp - arrival.Timestamp,
             Mode.walk⟩)))

/-- Append one numbered link to the chunk buffer, flushing the buffer to
the file when it reaches `chunk_size` rows. -/
def flushPush (chunk_size : ℕ) (file buffer : List Link) (l : Link) :
    List Link × List Link :=
  let buffer' := buffer ++ [l]
  if chunk_size ≤ buffer'.length then (file ++ buffer', []) else (file, buffer')

/-- Number and push a list of raw links through the chunk buffer. -/
def pushRaws (chunk_size : ℕ) : ℤ → List Link → List Link → List RawLink →
    ℤ × List Link × List Link
  | link_id, file, buffer, [] => (link_id, file, buffer)
  | link_id, file, buffer, r :: rs =>
    let fb := flushPush chunk_size file buffer ⟨link_id, r.from_node, r.to_node, r.duration, r.mode⟩
    pushRaws chunk_size (link_id + 1) fb.1 fb.2 rs

/-- The arrival loop of `append_walk_links_to_file`.  On the final
arrival the remaining buffer is written out; a failed stop lookup
aborts with the file contents written so far. -/
def walkGo (hav : ℚ → ℚ → ℚ → ℚ → ℚ) (CONFIG : Config) (stop_info : List (ℤ × StopRec))
    (all_departures : List Node) :
    List Node → ℤ → List Link → List Link → Except (List Link × String) (List Link × ℤ)
  | [], link_id, file, buffer => .ok (file ++ buffer, link_id)
  | arrival :: rest, link_id, file, buffer =>
    match walkLinksForArrival hav CONFIG stop_info all_departures arrival with
    | none => .error (file, "KeyError")
    | some raws =>
      let st := pushRaws 50000 link_id file buffer raws
      walkGo hav CONFIG stop_info all_departures rest st.1 st.2.1 st.2.2

/-- `append_walk_links_to_file`: WALK links appended to the file after
the earlier builders' contents, or an error carrying the file contents
at the moment an arrival's stop is missing from `stop_info`. -/
def append_walk_links (hav : ℚ → ℚ → ℚ → ℚ → ℚ) (CONFIG : Config)
    (stop_info : List (ℤ × StopRec)) (nodes : List Node) (start_link_id : ℤ)
    (file : List Link) : Except (List Link × String) (List Link × ℤ) :=
  let arrivals := nodes.filter Node.isArrival
  let all_departures := nodes.filter Node.isDeparture
  walkGo hav CONFIG stop_info all_departures arrivals start_link_id file []

/-- `create_link_table_memory_optimized`: run the four builders in
order, threading the link-id counter, the walk builder appending to the
file already holding the bus, wait and transfer links.  Note that no
configuration validation of any kind is performed before building. -/
def create_link_table (hav : ℚ → ℚ → ℚ → ℚ → ℚ) (CONFIG : Config)
    (stop_info : List (ℤ × StopRec)) (nodes : List Node) :
    Except (List Link × String) (List Link) :=
  let bus := create_bus_links nodes 1
  let wait := append_wait_links nodes bus.2
  let transfer := append_transfer_links CONFIG nodes wait.2
  match append_walk_links hav CONFIG stop_info nodes transfer.2
      (bus.1 ++ wait.1 ++ transfer.1) with
  | .ok res => .ok res.1
  | .error e => .error e

/-- `validate_config` from `config.py`, parametrized by the values it
checks.  (The H3 check is omitted: it concerns the tiling layer, not
the graph builders.)  The link generator never calls this function. -/
def validate_config (walking_radius walking_speed max_transfer_time min_transfer_time : ℚ) :
    Except String Unit :=
  if walking_radius ≤ 0 then .error "WALKING_RADIUS must be positive"
  else if walking_speed ≤ 0 then .error "WALKING_SPEED must be positive"
  else if max_transfer_time < min_transfer_time then
    .error "MAX_TRANSFER_TIME must be >= MIN_TRANSFER_TIME"
  else .ok ()

/-! ## The trip expander of `node_generator.py` -/

/-- Python's `round` (round half to even) on an exact rational. -/
def pyRound (q : ℚ) : ℤ :=
  if q - ⌊q⌋ < 1/2 then ⌊q⌋
  else if (1:ℚ)/2 < q - ⌊q⌋ then ⌊q⌋ + 1
  else if ⌊q⌋ % 2 = 0 then ⌊q⌋ else ⌊q⌋ + 1

/-- The default per-stop dwell time `WAITING_TIME` (seconds). -/
def WAITING_TIME : ℤ := 30

/-- `WAITING_TIME_BY_TYPE`: the per-bus-type dwell override table.  In
the source every entry is commented out, so the table is empty. -/
def WAITING_TIME_BY_TYPE : List (String × ℤ) := []

/-- `MIN_AVG_SPEED` (m/s). -/
def MIN_AVG_SPEED : ℚ := 1

/-- `WAITING_TIME_BY_TYPE.get(bus_type, WAITING_TIME)`. -/
def resolveWaitingTime (bus_type : String) : ℤ :=
  (List.lookup bus_type WAITING_TIME_BY_TYPE).getD WAITING_TIME

/-- `parse_time_to_seconds`, after `"HH:MM"` has been split into its two
integer fields (the string splitting and `int()` conversions are not
embedded; the range checks and the next-day shift are). -/
def parse_time_to_seconds (hours minutes : ℤ) (is_next_day : Bool) : Option ℤ :=
  if hours < 0 ∨ 23 < hours ∨ minutes < 0 ∨ 59 < minutes then none
  else if is_next_day then some (hours * 3600 + minutes * 60 + 24 * 3600)
  else some (hours * 3600 + minutes * 60)

/-- Two-digit zero padding, as in the `f"{h:02d}"` format fields. -/
def pad2 (n : ℤ) : String :=
  if n < 10 then "0" ++ toString n else toString n

/-- `seconds_to_time`: render seconds-since-midnight as `"HH:MM:SS"`, or
`"HH:MM:SS+Nd"` past midnight.  Python `//` and `%` are floor division
and floor modulus, i.e. `Int.fdiv` / `Int.fmod`. -/
def seconds_to_time (seconds : ℤ) : String :=
  if seconds < 0 then "00:00:00"
  else
    let days := Int.fdiv seconds (24 * 3600)
    let remaining_seconds := Int.fmod seconds (24 * 3600)
    let hours := Int.fdiv remaining_seconds 3600
    let minutes := Int.fdiv (Int.fmod remaining_seconds 3600) 60
    let secs := Int.fmod remaining_seconds 60
    if 0 < days then
      pad2 hours ++ ":" ++ pad2 minutes ++ ":" ++ pad2 secs ++ "+" ++ toString days ++ "d"
    else
      pad2 hours ++ ":" ++ pad2 minutes ++ ":" ++ pad2 secs

/-- One emitted trip event: the `StopId`, `Timestamp`, `Time` and
`Event` columns of a node row.  (`NodeId` is a global counter and the
route/variant/trip columns are constant across a trip's events, so they
are factored out of the per-trip embedding.) -/
structure TripEv where
  StopId : ℤ
  Timestamp : ℤ
  Time : String
  Event : EventKind
  deriving DecidableEq, Repr

/-- Emit one event: the timestamp is rounded once and the `Time` string
renders that same rounded value, exactly as in the row constructors of
`process_route_variant`. -/
def mkEv (kind : EventKind) (stop_id : ℤ) (t : ℚ) : TripEv :=
  ⟨stop_id, pyRound t, seconds_to_time (pyRound t), kind⟩

/-- The `for i, stop in enumerate(stops)` body for `i ≥ 1` of the
non-loop branch: each later stop is paired with the distance from its
predecessor (`stop_distances[i-1]`); an interior stop emits ARRIVAL then
DEPARTURE after the dwell, the terminal stop only the ARRIVAL. -/
def emitStops (v : ℚ) (waiting_time : ℤ) (current_time : ℚ) :
    List (ℤ × ℚ) → List TripEv
  | [] => []
  | (stop_id, dist) :: rest =>
    let arrival_time := current_time + dist / v
    match rest with
    | [] => [mkEv .arrival stop_id arrival_time]
    | _ :: _ =>
      mkEv .arrival stop_id arrival_time ::
      mkEv .departure stop_id (arrival_time + (waiting_time : ℚ)) ::
      emitStops v waiting_time (arrival_time + (waiting_time : ℚ)) rest

/-- The event-emission part of `process_route_variant` for one valid
trip.  Loop variants emit exactly the endpoint DEPARTURE/ARRIVAL pair;
non-loop variants walk the stop sequence. -/
def emitTripEvents (is_loop : Bool) (v : ℚ) (waiting_time : ℤ)
    (start_seconds end_seconds : ℤ) (stops : List ℤ) (stop_distances : List ℚ) :
    List TripEv :=
  if is_loop then
    match stops with
    | s0 :: s1 :: _ =>
      [mkEv .departure s0 (start_seconds : ℚ), mkEv .arrival s1 (end_seconds : ℚ)]
    | _ => []
  else
    match stops with
    | [] => []
    | s0 :: rest =>
      mkEv .departure s0 (start_seconds : ℚ) ::
      emitStops v waiting_time (start_seconds : ℚ) (rest.zip stop_distances)

/-- The per-trip validation and emission of `process_route_variant`
(the code after start/end seconds are resolved): the dwell budget and
traveling-time check, the average-speed window, then event emission.
For loop variants the source sets `stop_distances = [total_distance]`,
so `total_distance` is the sum of `stop_distances` in both branches.
An empty result means the trip was skipped. -/
def process_trip (is_loop : Bool) (waiting_time : ℤ) (stops : List ℤ)
    (stop_distances : List ℚ) (start_seconds end_seconds : ℤ) : List TripEv :=
  let total_distance := stop_distances.sum
  let total_waiting_time := ((stops.length : ℤ) - 1) * waiting_time
  let traveling_time := end_seconds - start_seconds - total_waiting_time
  if traveling_time ≤ 0 then []
  else
    let avg_speed := total_distance / (traveling_time : ℚ)
    if avg_speed < MIN_AVG_SPEED then []
    else if (111/5 : ℚ) < avg_speed then []
    else emitTripEvents is_loop avg_speed waiting_time start_seconds end_seconds
      stops stop_distances

/-- The overnight resolution of `process_route_variant` (lines 276-285):
when the parsed end does not exceed the parsed start, the end time is
re-parsed with `is_next_day=True`; the result is used if truthy
(non-`None` and non-zero, mirroring `if end_seconds_next_day:`). -/
def resolve_end_seconds (start_seconds end_seconds : ℤ) (endH endM : ℤ) : ℤ :=
  if end_seconds ≤ start_seconds then
    match parse_time_to_seconds endH endM true with
    | some e2 => if e2 = 0 then end_seconds else e2
    | none => end_seconds
  else end_seconds

/-- A whole trip of `process_route_variant`: parse both `"HH:MM"` times
(given as integer fields), apply the overnight resolution, then validate
and emit.  Unparseable times skip the trip. -/
def process_trip_full (is_loop : Bool) (waiting_time : ℤ) (stops : List ℤ)
    (stop_distances : List ℚ) (startH startM endH endM : ℤ) : List TripEv :=
  match parse_time_to_seconds startH startM false, parse_time_to_seconds endH endM false with
  | some start_seconds, some end_seconds =>
    process_trip is_loop waiting_time stops stop_distances start_seconds
      (resolve_end_seconds start_seconds end_seconds endH endM)
  | _, _ => []

/-- Checker for the claimed alternating shape of the events after the
leading departure: the remaining stops each contribute an
ARRIVAL/DEPARTURE pair separated by exactly the dwell, the final stop
only an ARRIVAL. -/
def interiorChain (waiting_time : ℤ) : List ℤ → List TripEv → Bool
  | [s], [e] => e.Event == EventKind.arrival && e.StopId == s
  | s :: ss₁ :: ss, a :: d :: evs =>
    a.Event == EventKind.arrival && a.StopId == s &&
    d.Event == EventKind.departure && d.StopId == s &&
    d.Timestamp == a.Timestamp + waiting_time &&
    interiorChain waiting_time (ss₁ :: ss) evs
  | _, _ => false

/-- Checker for the full claimed trip shape: a single DEPARTURE at the
first stop, then the interior chain over the remaining stops. -/
def tripShape (waiting_time : ℤ) (stops : List ℤ) (evs : List TripEv) : Bool :=
  match stops, evs with
  | s :: ss, e :: evs₁ =>
    e.Event == EventKind.departure && e.StopId == s &&
    interiorChain waiting_time ss evs₁
  | _, _ => false

/-! ## Plumbing lemmas -/

theorem mem_sortByTimestamp {n : Node} {l : List Node} :
    n ∈ sortByTimestamp l ↔ n ∈ l :=
  (List.perm_insertionSort _ l).mem_iff

theorem mem_groupKeys2 {key : Node → ℤ × ℤ} {nodes : List Node} {k : ℤ × ℤ} :
    k ∈ groupKeys2 key nodes ↔ ∃ n ∈ nodes, key n = k := by
  unfold groupKeys2
  rw [(List.perm_insertionSort _ _).mem_iff, List.mem_dedup, List.mem_map]

theorem mem_groupKeys1 {key : Node → ℤ} {nodes : List Node} {k : ℤ} :
    k ∈ groupKeys1 key nodes ↔ ∃ n ∈ nodes, key n = k := by
  unfold groupKeys1
  rw [(List.perm_insertionSort _ _).mem_iff, List.mem_dedup, List.mem_map]

theorem numberLinks_snd (startId : ℤ) (rs : List RawLink) :
    (numberLinks startId rs).2 = startId + rs.length := by
  induction rs generalizing startId with
  | nil => simp [numberLinks]
  | cons r rs ih => simp [numberLinks, ih]; omega

theorem numberLinks_append (startId : ℤ) (xs ys : List RawLink) :
    (numberLinks startId (xs ++ ys)).1 =
      (numberLinks startId xs).1 ++ (numberLinks (startId + xs.length) ys).1 := by
  induction xs generalizing startId with
  | nil => simp [numberLinks]
  | cons x xs ih =>
    have hc : startId + ((xs.length : ℤ) + 1) = startId + 1 + xs.length := by ring
    simp only [List.cons_append, numberLinks, List.length_cons, Nat.cast_add,
      Nat.cast_one, hc, ih, List.append_eq]

theorem mem_numberLinks_raw {startId : ℤ} {rs : List RawLink} {l : Link}
    (h : l ∈ (numberLinks startId rs).1) :
    (⟨l.from_node, l.to_node, l.duration, l.mode⟩ : RawLink) ∈ rs := by
  induction rs generalizing startId with
  | nil => simp [numberLinks] at h
  | cons r rs ih =>
    rw [numberLinks] at h
    rcases List.mem_cons.mp h with h1 | h1
    · subst h1; left
    · exact List.mem_cons_of_mem _ (ih h1)

theorem numberLinks_exists_of_raw {startId : ℤ} {rs : List RawLink} {r : RawLink}
    (h : r ∈ rs) :
    ∃ l ∈ (numberLinks startId rs).1, l.from_node = r.from_node ∧
      l.to_node = r.to_node ∧ l.duration = r.duration ∧ l.mode = r.mode := by
  induction rs generalizing startId with
  | nil => cases h
  | cons x rs ih =>
    rcases List.mem_cons.mp h with h1 | h1
    · subst h1
      exact ⟨⟨startId, r.from_node, r.to_node, r.duration, r.mode⟩,
        List.mem_cons_self _ _, rfl, rfl, rfl, rfl⟩
    · obtain ⟨l, hl, hp⟩ := @ih (startId + 1) h1
      exact ⟨l, List.mem_cons_of_mem _ hl, hp⟩

theorem flushPush_content (cs : ℕ) (file buffer : List Link) (l : Link) :
    (flushPush cs file buffer l).1 ++ (flushPush cs file buffer l).2 =
      file ++ buffer ++ [l] := by
  unfold flushPush
  dsimp only
  split <;> simp

theorem flushPush_extends (cs : ℕ) (file buffer : List Link) (l : Link) :
    ∃ ext, (flushPush cs file buffer l).1 = file ++ ext := by
  unfold flushPush
  dsimp only
  split
  · exact ⟨buffer ++ [l], by simp⟩
  · exact ⟨[], by simp⟩

theorem pushRaws_spec (cs : ℕ) (rs : List RawLink) :
    ∀ (link_id : ℤ) (file buffer : List Link),
      (pushRaws cs link_id file buffer rs).1 = link_id + rs.length ∧
      (pushRaws cs link_id file buffer rs).2.1 ++ (pushRaws cs link_id file buffer rs).2.2 =
        file ++ buffer ++ (numberLinks link_id rs).1 ∧
      ∃ ext, (pushRaws cs link_id file buffer rs).2.1 = file ++ ext := by
  induction rs with
  | nil =>
    intro link_id file buffer
    refine ⟨by simp [pushRaws], by simp [pushRaws, numberLinks], ⟨[], by simp [pushRaws]⟩⟩
  | cons r rs ih =>
    intro link_id file buffer
    have hstep : pushRaws cs link_id file buffer (r :: rs) =
        pushRaws cs (link_id + 1)
          (flushPush cs file buffer ⟨link_id, r.from_node, r.to_node, r.duration, r.mode⟩).1
          (flushPush cs file buffer ⟨link_id, r.from_node, r.to_node, r.duration, r.mode⟩).2
          rs := rfl
    obtain ⟨ih1, ih2, ih3⟩ := ih (link_id + 1)
      (flushPush cs file buffer ⟨link_id, r.from_node, r.to_node, r.duration, r.mode⟩).1
      (flushPush cs file buffer ⟨link_id, r.from_node, r.to_node, r.duration, r.mode⟩).2
    refine ⟨?_, ?_, ?_⟩
    · rw [hstep, ih1]
      simp only [List.length_cons, Nat.cast_add, Nat.cast_one]
      ring
    · rw [hstep, ih2, flushPush_content]
      simp [numberLinks, List.append_assoc]
    · obtain ⟨e1, he1⟩ := flushPush_extends cs file buffer
        ⟨link_id, r.from_node, r.to_node, r.duration, r.mode⟩
      obtain ⟨e2, he2⟩ := ih3
      refine ⟨e1 ++ e2, ?_⟩
      rw [hstep, he2, he1, List.append_assoc]

theorem walkGo_ok_content (hav : ℚ → ℚ → ℚ → ℚ → ℚ) (CONFIG : Config)
    (stop_info : List (ℤ × StopRec)) (all_departures : List Node) :
    ∀ (arrs : List Node) (link_id : ℤ) (file buffer content : List Link) (next_id : ℤ),
      walkGo hav CONFIG stop_info all_departures arrs link_id file buffer =
        .ok (content, next_id) →
      content = file ++ buffer ++ (numberLinks link_id (arrs.flatMap (fun a =>
        (walkLinksForArrival hav CONFIG stop_info all_departures a).getD []))).1 := by
  intro arrs
  induction arrs with
  | nil =>
    intro link_id file buffer content next_id h
    simp only [walkGo] at h
    cases h
    simp [numberLinks]
  | cons a rest ih =>
    intro link_id file buffer content next_id h
    simp only [walkGo] at h
    cases hw : walkLinksForArrival hav CONFIG stop_info all_departures a with
    | none => rw [hw] at h; cases h
    | some raws =>
      rw [hw] at h
      have spec := pushRaws_spec 50000 raws link_id file buffer
      have := ih _ _ _ _ _ h
      rw [this, spec.1, spec.2.1]
      simp only [List.flatMap_cons, hw, Option.getD_some, numberLinks_append]
      simp [List.append_assoc]

theorem walkGo_error_extends (hav : ℚ → ℚ → ℚ → ℚ → ℚ) (CONFIG : Config)
    (stop_info : List (ℤ × StopRec)) (all_departures : List Node) :
    ∀ (arrs : List Node) (link_id : ℤ) (file buffer w : List Link) (msg : String),
      walkGo hav CONFIG stop_info all_departures arrs link_id file buffer =
        .error (w, msg) →
      ∃ ext, w = file ++ ext := by
  intro arrs
  induction arrs with
  | nil =>
    intro link_id file buffer w msg h
    simp only [walkGo] at h
    simp at h
  | cons a rest ih =>
    intro link_id file buffer w msg h
    simp only [walkGo] at h
    cases hw : walkLinksForArrival hav CONFIG stop_info all_departures a with
    | none =>
      rw [hw] at h
      cases h
      exact ⟨[], by simp⟩
    | some raws =>
      rw [hw] at h
      obtain ⟨e1, he1⟩ := (pushRaws_spec 50000 raws link_id file buffer).2.2
      obtain ⟨e2, he2⟩ := ih _ _ _ _ _ h
      exact ⟨e1 ++ e2, by rw [he2, he1, List.append_assoc]⟩

theorem walkGo_error_of_missing (hav : ℚ → ℚ → ℚ → ℚ → ℚ) (CONFIG : Config)
    (stop_info : List (ℤ × StopRec)) (all_departures : List Node) :
    ∀ (arrs : List Node) (link_id : ℤ) (file buffer : List Link) (a : Node),
      a ∈ arrs →
      walkLinksForArrival hav CONFIG stop_info all_departures a = none →
      ∃ w msg, walkGo hav CONFIG stop_info all_departures arrs link_id file buffer =
        .error (w, msg) := by
  intro arrs
  induction arrs with
  | nil => intro _ _ _ a ha; cases ha
  | cons b rest ih =>
    intro link_id file buffer a ha hnone
    simp only [walkGo]
    cases hw : walkLinksForArrival hav CONFIG stop_info all_departures b with
    | none => exact ⟨file, "KeyError", rfl⟩
    | some raws =>
      rcases List.mem_cons.mp ha with h | h
      · subst h; rw [hw] at hnone; cases hnone
      · exact ih _ _ _ a h hnone

theorem lookup_mem {α β : Type} [BEq α] [LawfulBEq α] {k : α} {v : β}
    {l : List (α × β)} (h : List.lookup k l = some v) : (k, v) ∈ l := by
  induction l with
  | nil => cases h
  | cons p t ih =>
    obtain ⟨k1, v1⟩ := p
    rw [List.lookup] at h
    cases hk : (k == k1) with
    | true =>
      rw [hk] at h
      have h1 : v1 = v := by simpa using h
      have h2 : k = k1 := eq_of_beq hk
      subst h1
      subst h2
      exact List.mem_cons_self _ _
    | false =>
      rw [hk] at h
      have h1 : List.lookup k t = some v := by simpa using h
      exact List.mem_cons_of_mem _ (ih h1)

theorem mem_lookup_of_nodup {α β : Type} [BEq α] [LawfulBEq α] {k : α} {v : β}
    {l : List (α × β)} (hnd : (l.map Prod.fst).Nodup) (h : (k, v) ∈ l) :
    List.lookup k l = some v := by
  induction l with
  | nil => cases h
  | cons p t ih =>
    obtain ⟨k1, v1⟩ := p
    rw [List.map_cons, List.nodup_cons] at hnd
    rcases List.mem_cons.mp h with h1 | h1
    · injection h1 with hk hv
      subst hk
      subst hv
      rw [List.lookup]
      simp
    · rw [List.lookup]
      cases hk : (k == k1) with
      | true =>
        exfalso
        have hkk : k = k1 := eq_of_beq hk
        subst hkk
        exact hnd.1 (List.mem_map.mpr ⟨(k, v), h1, rfl⟩)
      | false => simpa using ih hnd.2 h1

theorem isArrival_iff {n : Node} : n.isArrival = true ↔ n.Event = EventKind.arrival := by
  cases hE : n.Event <;> simp [Node.isArrival, hE]

theorem isDeparture_iff {n : Node} : n.isDeparture = true ↔ n.Event = EventKind.departure := by
  cases hE : n.Event <;> simp [Node.isDeparture, hE]

theorem mem_ite_singleton {α : Type} {c : Prop} [Decidable c] {x y : α} :
    x ∈ (if c then [y] else ([] : List α)) ↔ c ∧ x = y := by
  split <;> simp_all

/-- Membership characterization of the WAIT links: exactly the pairs of
an ARRIVAL and a strictly later DEPARTURE at the same stop on the same
route. -/
theorem mem_rawWaitLinks {nodes : List Node} {r : RawLink} :
    r ∈ rawWaitLinks nodes ↔
      ∃ a ∈ nodes, ∃ d ∈ nodes, a.Event = EventKind.arrival ∧
        d.Event = EventKind.departure ∧ d.StopId = a.StopId ∧ d.RouteId = a.RouteId ∧
        a.Timestamp < d.Timestamp ∧
        r = ⟨a.NodeId, d.NodeId, d.Timestamp - a.Timestamp, Mode.wait⟩ := by
  simp only [rawWaitLinks, List.mem_flatMap, mem_groupKeys2, List.mem_map,
    List.mem_filter, mem_sortByTimestamp, decide_eq_true_eq, beq_iff_eq,
    isArrival_iff, isDeparture_iff]
  constructor
  · rintro ⟨k, -, a, ⟨⟨ha, hak⟩, haev⟩, d, ⟨⟨⟨hd, hdk⟩, hdev⟩, hlt⟩, hr⟩
    have hpair : (d.StopId, d.RouteId) = (a.StopId, a.RouteId) := by rw [hdk, hak]
    injection hpair with h1 h2
    exact ⟨a, ha, d, hd, haev, hdev, h1, h2, hlt, hr.symm⟩
  · rintro ⟨a, ha, d, hd, haev, hdev, hstop, hroute, hlt, hr⟩
    exact ⟨(a.StopId, a.RouteId), ⟨a, ha, rfl⟩, a, ⟨⟨ha, rfl⟩, haev⟩,
      d, ⟨⟨⟨hd, by rw [hstop, hroute]⟩, hdev⟩, hlt⟩, hr.symm⟩

/-- Membership characterization of the TRANSFER links: exactly the pairs
of an ARRIVAL and a DEPARTURE at the same stop on a different route,
strictly later, within `MAX_TRANSFER_TIME`, and at least
`MIN_TRANSFER_TIME` later. -/
theorem mem_rawTransferLinks {CONFIG : Config} {nodes : List Node} {r : RawLink} :
    r ∈ rawTransferLinks CONFIG nodes ↔
      ∃ a ∈ nodes, ∃ d ∈ nodes, a.Event = EventKind.arrival ∧
        d.Event = EventKind.departure ∧ d.StopId = a.StopId ∧ d.RouteId ≠ a.RouteId ∧
        a.Timestamp < d.Timestamp ∧
        ((d.Timestamp - a.Timestamp : ℤ) : ℚ) ≤ CONFIG.MAX_TRANSFER_TIME ∧
        CONFIG.MIN_TRANSFER_TIME ≤ ((d.Timestamp - a.Timestamp : ℤ) : ℚ) ∧
        r = ⟨a.NodeId, d.NodeId, d.Timestamp - a.Timestamp, Mode.transfer⟩ := by
  simp only [rawTransferLinks, List.mem_flatMap, mem_groupKeys1, List.mem_filter,
    mem_sortByTimestamp, mem_ite_singleton, Bool.and_eq_true, bne_iff_ne,
    decide_eq_true_eq, beq_iff_eq, isArrival_iff, isDeparture_iff]
  constructor
  · rintro ⟨s, -, a, ⟨⟨ha, hak⟩, haev⟩, d, ⟨⟨⟨hd, hdk⟩, hdev⟩, ⟨hne, hlt⟩, hmax⟩,
      hmin, hr⟩
    exact ⟨a, ha, d, hd, haev, hdev, hdk.trans hak.symm, hne, hlt, hmax, hmin, hr⟩
  · rintro ⟨a, ha, d, hd, haev, hdev, hstop, hne, hlt, hmax, hmin, hr⟩
    exact ⟨a.StopId, ⟨a, ha, rfl⟩, a, ⟨⟨ha, rfl⟩, haev⟩,
      d, ⟨⟨⟨⟨hd, hstop⟩, hdev⟩, ⟨hne, hlt⟩, hmax⟩, hmin, hr⟩⟩

instance : IsTotal Node (fun a b => a.Timestamp ≤ b.Timestamp) :=
  ⟨fun a b => le_total a.Timestamp b.Timestamp⟩

instance : IsTrans Node (fun a b => a.Timestamp ≤ b.Timestamp) :=
  ⟨fun _ _ _ h1 h2 => le_trans h1 h2⟩

theorem sortByTimestamp_sorted (l : List Node) :
    (sortByTimestamp l).Pairwise (fun a b => a.Timestamp ≤ b.Timestamp) :=
  List.sorted_insertionSort (fun a b : Node => a.Timestamp ≤ b.Timestamp) l

theorem head?_filter_min {l : List Node} {p : Node → Bool} {a : Node}
    (hs : l.Pairwise (fun x y => x.Timestamp ≤ y.Timestamp))
    (h : (l.filter p).head? = some a) :
    a ∈ l.filter p ∧ ∀ b ∈ l.filter p, a.Timestamp ≤ b.Timestamp := by
  have hp : (l.filter p).Pairwise (fun x y => x.Timestamp ≤ y.Timestamp) := hs.filter p
  cases hl : l.filter p with
  | nil => rw [hl] at h; cases h
  | cons x t =>
    rw [hl] at h
    have hx : x = a := by simpa using h
    subst hx
    rw [hl] at hp
    constructor
    · exact List.mem_cons_self _ _
    · intro b hb
      rcases List.mem_cons.mp hb with h1 | h1
      · subst h1; exact le_refl _
      · exact List.rel_of_sorted_cons hp b h1

/-- Soundness of the BUS links: every emitted raw bus link joins a
DEPARTURE to an ARRIVAL of the same `(RouteId, TripId)` group with the
least timestamp strictly above the departure's, with the exact time
delta as duration, under 1800 s. -/
theorem mem_rawBusLinks_sound {nodes : List Node} {r : RawLink}
    (hr : r ∈ rawBusLinks nodes) :
    ∃ dep ∈ nodes, ∃ arr ∈ nodes, dep.Event = EventKind.departure ∧
      arr.Event = EventKind.arrival ∧ arr.RouteId = dep.RouteId ∧
      arr.TripId = dep.TripId ∧ dep.Timestamp < arr.Timestamp ∧
      arr.Timestamp - dep.Timestamp < 1800 ∧
      r = ⟨dep.NodeId, arr.NodeId, arr.Timestamp - dep.Timestamp, Mode.bus⟩ ∧
      ∀ a2 ∈ nodes, a2.Event = EventKind.arrival → a2.RouteId = dep.RouteId →
        a2.TripId = dep.TripId → dep.Timestamp < a2.Timestamp →
        arr.Timestamp ≤ a2.Timestamp := by
  rw [rawBusLinks, List.mem_flatMap] at hr
  obtain ⟨k, -, hr⟩ := hr
  rw [List.mem_flatMap] at hr
  obtain ⟨dep, hdep, hr⟩ := hr
  rw [List.mem_filter, mem_sortByTimestamp, List.mem_filter] at hdep
  obtain ⟨⟨hdepn, hdepk⟩, hdepev⟩ := hdep
  cases hh : ((sortByTimestamp (nodes.filter (fun n => (n.RouteId, n.TripId) == k))).filter
      Node.isArrival).filter (fun a => decide (dep.Timestamp < a.Timestamp)) |>.head? with
  | none => rw [hh] at hr; cases hr
  | some arr =>
    rw [hh, mem_ite_singleton] at hr
    obtain ⟨hlt1800, hreq⟩ := hr
    have hmin := head?_filter_min ((sortByTimestamp_sorted _).filter _) hh
    obtain ⟨harrmem, hminle⟩ := hmin
    rw [List.mem_filter, List.mem_filter, mem_sortByTimestamp, List.mem_filter] at harrmem
    obtain ⟨⟨⟨harrn, harrk⟩, harrev⟩, harrlt⟩ := harrmem
    rw [decide_eq_true_eq] at harrlt
    rw [beq_iff_eq] at hdepk harrk
    have hpair : (arr.RouteId, arr.TripId) = (dep.RouteId, dep.TripId) := by
      rw [harrk, hdepk]
    injection hpair with hroute htrip
    refine ⟨dep, hdepn, arr, harrn, isDeparture_iff.mp hdepev, isArrival_iff.mp harrev,
      hroute, htrip, harrlt, hlt1800, hreq, ?_⟩
    intro a2 ha2 ha2ev ha2route ha2trip ha2lt
    refine hminle a2 ?_
    rw [List.mem_filter, List.mem_filter, mem_sortByTimestamp, List.mem_filter]
    refine ⟨⟨⟨ha2, ?_⟩, isArrival_iff.mpr ha2ev⟩, decide_eq_true ha2lt⟩
    rw [beq_iff_eq, ha2route, ha2trip, ← hdepk]

/-! ## Concrete fixtures -/

/-- The single-trip scenario of spec section 8: one route (id 10), one
trip (id 1) over stops A=1, B=2, C=3, events DEP@A 25200, ARR@B 25470,
DEP@B 25500, ARR@C 25770. -/
def scenarioNodes : List Node :=
  [⟨1, 10, 1, 1, 25200, .departure⟩,
   ⟨2, 10, 1, 2, 25470, .arrival⟩,
   ⟨3, 10, 1, 2, 25500, .departure⟩,
   ⟨4, 10, 1, 3, 25770, .arrival⟩]

/-- Transfer fixture: at stop 5, route 1 arrives at t = 1000 and route 2
departs at t = 1120 = 1000 + MIN_TRANSFER_TIME exactly. -/
def transferNodes : List Node :=
  [⟨1, 1, 1, 5, 1000, .arrival⟩,
   ⟨2, 2, 7, 5, 1120, .departure⟩]

/-- Ride fixture with a zero-length segment: the trip departs stop 1 at
t = 100 and arrives at stop 2 at the same t = 100 (stop distance 0),
departs stop 2 at 130, arrives at stop 3 at 200. -/
def zeroSegNodes : List Node :=
  [⟨1, 1, 1, 1, 100, .departure⟩,
   ⟨2, 1, 1, 2, 100, .arrival⟩,
   ⟨3, 1, 1, 2, 130, .departure⟩,
   ⟨4, 1, 1, 3, 200, .arrival⟩]

/-! ## Claim C3 -/

/-- C3 counterexample: in the single-trip scenario of spec section 8 the
wait-link builder does emit a wait link.  The claim's premise fails at
stop B: the (stop 2, route 10) group holds the ARRIVAL at 25470 and the
same-trip DEPARTURE at 25500, a strictly later same-group departure. -/
theorem single_trip_emits_wait_link :
    (append_wait_links scenarioNodes 1).1 ≠ [] := by decide

/-- C3 (amended): in the single-trip scenario of spec section 8 the
wait-link builder emits exactly one wait link, from the ARRIVAL at stop
B (node 2, t = 25470) to the same-stop same-route DEPARTURE (node 3,
t = 25500), of duration 30 — the dwell pair of the single trip itself.
No other (stop, route) group holds an arrival before a departure. -/
theorem single_trip_wait_links :
    (append_wait_links scenarioNodes 1).1 = [⟨1, 2, 3, 30, Mode.wait⟩] := by decide

/-! ## Claim C2 -/

/-- C2 counterexample: a departure at exactly
`tₐ + MIN_TRANSFER_TIME` is paired, not excluded.  At stop 5, route 1
arrives at 1000 and route 2 departs at 1120 = 1000 + 120; the builder
emits the transfer link (the source keeps any delta with
`transfer_time >= CONFIG['MIN_TRANSFER_TIME']`). -/
theorem transfer_link_at_exact_min_emitted :
    (append_transfer_links defaultCONFIG transferNodes 1).1 =
      [⟨1, 1, 2, 120, Mode.transfer⟩] := by decide

/-- C2 (amended): for every ARRIVAL at time `tₐ` with route `rₐ`, a
transfer link is emitted to exactly those DEPARTURE events at the same
stop whose route differs from `rₐ` and whose timestamp lies in the
closed interval `[tₐ + MIN_TRANSFER_TIME, tₐ + MAX_TRANSFER_TIME]`
(and is strictly greater than `tₐ`); in particular a departure at
exactly `tₐ + MIN_TRANSFER_TIME` is included.  Duration is the exact
time delta. -/
theorem transfer_link_emitted_iff (CONFIG : Config) (nodes : List Node)
    (start_link_id : ℤ) (hnodup : (nodes.map Node.NodeId).Nodup)
    (a d : Node) (ha : a ∈ nodes) (hd : d ∈ nodes) :
    (∃ l ∈ (append_transfer_links CONFIG nodes start_link_id).1,
        l.from_node = a.NodeId ∧ l.to_node = d.NodeId ∧
        l.duration = d.Timestamp - a.Timestamp ∧ l.mode = Mode.transfer) ↔
      (a.Event = EventKind.arrival ∧ d.Event = EventKind.departure ∧
       d.StopId = a.StopId ∧ d.RouteId ≠ a.RouteId ∧ a.Timestamp < d.Timestamp ∧
       ((d.Timestamp - a.Timestamp : ℤ) : ℚ) ≤ CONFIG.MAX_TRANSFER_TIME ∧
       CONFIG.MIN_TRANSFER_TIME ≤ ((d.Timestamp - a.Timestamp : ℤ) : ℚ)) := by
  rw [append_transfer_links]
  constructor
  · rintro ⟨l, hl, hfrom, hto, hdur, hmode⟩
    have hr := mem_numberLinks_raw hl
    rw [mem_rawTransferLinks] at hr
    obtain ⟨a1, ha1, d1, hd1, ha1ev, hd1ev, hstop, hne, hlt, hmax, hmin, hreq⟩ := hr
    injection hreq with h1 h2 h3 h4
    have hea : a1 = a := List.inj_on_of_nodup_map hnodup ha1 ha (by rw [← h1, hfrom])
    have hed : d1 = d := List.inj_on_of_nodup_map hnodup hd1 hd (by rw [← h2, hto])
    subst hea
    subst hed
    exact ⟨ha1ev, hd1ev, hstop, hne, hlt, hmax, hmin⟩
  · rintro ⟨haev, hdev, hstop, hne, hlt, hmax, hmin⟩
    have hr : (⟨a.NodeId, d.NodeId, d.Timestamp - a.Timestamp, Mode.transfer⟩ : RawLink) ∈
        rawTransferLinks CONFIG nodes := by
      rw [mem_rawTransferLinks]
      exact ⟨a, ha, d, hd, haev, hdev, hstop, hne, hlt, hmax, hmin, rfl⟩
    obtain ⟨l, hl, hp1, hp2, hp3, hp4⟩ :=
      @numberLinks_exists_of_raw start_link_id _ _ hr
    exact ⟨l, hl, hp1, hp2, hp3, hp4⟩

/-- Witness for `transfer_link_emitted_iff` at the boundary fixture:
both sides hold for the arrival/departure pair with delta exactly
`MIN_TRANSFER_TIME`. -/
theorem transfer_link_emitted_iff_witness :
    ((transferNodes.map Node.NodeId).Nodup ∧
      ⟨1, 1, 1, 5, 1000, .arrival⟩ ∈ transferNodes ∧
      ⟨2, 2, 7, 5, 1120, .departure⟩ ∈ transferNodes) ∧
    (∃ l ∈ (append_transfer_links defaultCONFIG transferNodes 1).1,
        l.from_node = 1 ∧ l.to_node = 2 ∧ l.duration = 120 ∧ l.mode = Mode.transfer) :=
  ⟨⟨by decide, by decide, by decide⟩,
    (transfer_link_emitted_iff defaultCONFIG transferNodes 1 (by decide)
      ⟨1, 1, 1, 5, 1000, .arrival⟩ ⟨2, 2, 7, 5, 1120, .departure⟩
      (by decide) (by decide)).mpr
      ⟨rfl, rfl, rfl, by decide, by decide, by decide, by decide⟩⟩

/-! ## Claim C4 -/

/-- C4 counterexample: with a zero-length segment (ARR at stop 2 sharing
timestamp 100 with the preceding DEP at stop 1), the emitted ride link
from node 1 goes to node 4 (t = 200), not to node 2 — the arrival
immediately following node 1 in the trip's timestamp-sorted event
sequence.  The equal-timestamp arrival is skipped by the strict
`Timestamp > dep_time` filter. -/
theorem bus_link_skips_simultaneous_arrival :
    (create_bus_links zeroSegNodes 1).1.map (fun l => (l.from_node, l.to_node, l.duration)) =
      [(1, 4, 100), (3, 4, 70)] ∧
    (sortByTimestamp zeroSegNodes).map (fun n => (n.NodeId, n.Event)) =
      [(1, .departure), (2, .arrival), (3, .departure), (4, .arrival)] := by
  constructor <;> decide

/-- C4 (amended): every emitted ride (bus) link joins a DEPARTURE to an
ARRIVAL of the same `(RouteId, TripId)` group whose timestamp is the
least one strictly greater than the departure's (an arrival sharing the
departure's timestamp is skipped), with duration the exact delta,
strictly positive and under 1800 s.  This holds for every input node
table. -/
theorem bus_link_sound (nodes : List Node) (start_link_id : ℤ) :
    ∀ l ∈ (create_bus_links nodes start_link_id).1,
      ∃ dep ∈ nodes, ∃ arr ∈ nodes,
        l.from_node = dep.NodeId ∧ l.to_node = arr.NodeId ∧
        dep.Event = EventKind.departure ∧ arr.Event = EventKind.arrival ∧
        arr.RouteId = dep.RouteId ∧ arr.TripId = dep.TripId ∧
        dep.Timestamp < arr.Timestamp ∧
        l.duration = arr.Timestamp - dep.Timestamp ∧ l.duration < 1800 ∧
        ∀ a2 ∈ nodes, a2.Event = EventKind.arrival → a2.RouteId = dep.RouteId →
          a2.TripId = dep.TripId → dep.Timestamp < a2.Timestamp →
          arr.Timestamp ≤ a2.Timestamp := by
  rw [create_bus_links]
  intro l hl
  obtain ⟨dep, hdep, arr, harr, hdev, haev, hroute, htrip, hlt, h1800, hreq, hmin⟩ :=
    mem_rawBusLinks_sound (mem_numberLinks_raw hl)
  injection hreq with h1 h2 h3 h4
  exact ⟨dep, hdep, arr, harr, h1, h2, hdev, haev, hroute, htrip, hlt, h3,
    by omega, hmin⟩

/-- Witness for `bus_link_sound` at the zero-length-segment fixture. -/
theorem bus_link_sound_witness :
    (⟨1, 1, 4, 100, Mode.bus⟩ ∈ (create_bus_links zeroSegNodes 1).1) ∧
    (∃ dep ∈ zeroSegNodes, ∃ arr ∈ zeroSegNodes,
      (1 : ℤ) = dep.NodeId ∧ (4 : ℤ) = arr.NodeId ∧
      dep.Event = EventKind.departure ∧ arr.Event = EventKind.arrival ∧
      arr.RouteId = dep.RouteId ∧ arr.TripId = dep.TripId ∧
      dep.Timestamp < arr.Timestamp ∧
      (100 : ℤ) = arr.Timestamp - dep.Timestamp ∧ (100 : ℤ) < 1800 ∧
      ∀ a2 ∈ zeroSegNodes, a2.Event = EventKind.arrival → a2.RouteId = dep.RouteId →
        a2.TripId = dep.TripId → dep.Timestamp < a2.Timestamp →
        arr.Timestamp ≤ a2.Timestamp) :=
  ⟨by decide, bus_link_sound zeroSegNodes 1 ⟨1, 1, 4, 100, Mode.bus⟩ (by decide)⟩

theorem mem_guard {l : List Node} {p : Node → Bool} {f : Node → RawLink} {r : RawLink} :
    (r ∈ (if l.isEmpty then [] else (l.filter p).map f)) ↔ r ∈ (l.filter p).map f := by
  cases l <;> simp

/-- Membership characterization of the walk links an arrival generates
(given that its `stop_info` lookup succeeds): exactly the departures at
a distinct in-radius stop with disjoint route sets, inside the
walk-plus-wait window. -/
theorem mem_walkLinksForArrival {hav : ℚ → ℚ → ℚ → ℚ → ℚ} {CONFIG : Config}
    {stop_info : List (ℤ × StopRec)} {all_departures : List Node} {arrival : Node}
    {center : StopRec} (hc : List.lookup arrival.StopId stop_info = some center)
    {r : RawLink} :
    r ∈ (walkLinksForArrival hav CONFIG stop_info all_departures arrival).getD [] ↔
      ∃ p ∈ stop_info, p.1 ≠ arrival.StopId ∧
        hav center.Lat center.Lng p.2.Lat p.2.Lng ≤ CONFIG.WALKING_RADIUS ∧
        (∀ rt ∈ stop_routes stop_info arrival.StopId, rt ∉ stop_routes stop_info p.1) ∧
        ∃ d ∈ all_departures, d.StopId = p.1 ∧
          (arrival.Timestamp : ℚ) +
            hav center.Lat center.Lng p.2.Lat p.2.Lng / CONFIG.WALKING_SPEED ≤
            (d.Timestamp : ℚ) ∧
          ((d.Timestamp - arrival.Timestamp : ℤ) : ℚ) ≤ CONFIG.MAX_WALK_WAIT_TIME ∧
          r = ⟨arrival.NodeId, d.NodeId, d.Timestamp - arrival.Timestamp, Mode.walk⟩ := by
  rw [walkLinksForArrival, hc]
  simp only [Option.getD_some, List.mem_flatMap, find_stops_within_radius,
    List.mem_filterMap]
  constructor
  · rintro ⟨bd, ⟨p, hp, hbd⟩, hr⟩
    by_cases h1 : (p.1 != arrival.StopId) = true
    · rw [if_pos h1] at hbd
      by_cases h2 : hav center.Lat center.Lng p.2.Lat p.2.Lng ≤ CONFIG.WALKING_RADIUS
      · rw [if_pos h2] at hbd
        injection hbd with hbd
        subst hbd
        cases hsh : (stop_routes stop_info arrival.StopId).any
            (fun rt => (stop_routes stop_info p.1).contains rt) with
        | true => rw [hsh] at hr; simp at hr
        | false =>
          rw [hsh] at hr
          simp only [Bool.false_eq_true, if_false] at hr
          rw [mem_guard, List.mem_map] at hr
          obtain ⟨d, hd, hdr⟩ := hr
          rw [List.mem_filter, mem_sortByTimestamp, List.mem_filter] at hd
          obtain ⟨⟨hdmem, hdstop⟩, hdw⟩ := hd
          rw [Bool.and_eq_true, decide_eq_true_eq, decide_eq_true_eq] at hdw
          refine ⟨p, hp, by simpa using h1, h2, ?_, d, hdmem, by simpa using hdstop,
            hdw.1, hdw.2, hdr.symm⟩
          intro rt hrt
          have := List.any_eq_false.mp hsh rt hrt
          simpa using this
      · rw [if_neg h2] at hbd; cases hbd
    · rw [if_neg h1] at hbd; cases hbd
  · rintro ⟨p, hp, hne, hrad, hdisj, d, hd, hdstop, hwin1, hwin2, hr⟩
    refine ⟨(p.1, hav center.Lat center.Lng p.2.Lat p.2.Lng), ⟨p, hp, ?_⟩, ?_⟩
    · rw [if_pos (by simpa using hne), if_pos hrad]
    · have hsh : (stop_routes stop_info arrival.StopId).any
          (fun rt => (stop_routes stop_info p.1).contains rt) = false := by
        rw [List.any_eq_false]
        intro rt hrt
        simpa using hdisj rt hrt
      rw [hsh]
      simp only [Bool.false_eq_true, if_false]
      rw [mem_guard, List.mem_map]
      refine ⟨d, ?_, hr.symm⟩
      rw [List.mem_filter, mem_sortByTimestamp, List.mem_filter]
      exact ⟨⟨hd, by simpa using hdstop⟩,
        by rw [Bool.and_eq_true, decide_eq_true_eq, decide_eq_true_eq]; exact ⟨hwin1, hwin2⟩⟩

/-! ## Claim C1 -/

/-- C1: for every ARRIVAL at stop `a` and stop `b ≠ a` within
`WALKING_RADIUS` whose route set is disjoint from `a`'s, a walk link is
emitted to exactly those DEPARTURE events at `b` inside the
walk-plus-wait window `tₐ + dist/WALKING_SPEED ≤ t_d` and
`t_d − tₐ ≤ MAX_WALK_WAIT_TIME`, with duration `t_d − tₐ`; when the
route sets intersect, no walk link to `b` is emitted.  Stated as a
characterization of the links the walk builder appends beyond the
initial file contents, for any completed run. -/
theorem walk_link_emitted_iff (hav : ℚ → ℚ → ℚ → ℚ → ℚ) (CONFIG : Config)
    (stop_info : List (ℤ × StopRec)) (nodes : List Node) (start_link_id : ℤ)
    (file content : List Link) (next_id : ℤ)
    (hok : append_walk_links hav CONFIG stop_info nodes start_link_id file =
      .ok (content, next_id))
    (hkeys : (stop_info.map Prod.fst).Nodup)
    (hnodup : (nodes.map Node.NodeId).Nodup)
    (a d : Node) (ha : a ∈ nodes) (hd : d ∈ nodes) :
    (∃ l ∈ content.drop file.length,
        l.from_node = a.NodeId ∧ l.to_node = d.NodeId ∧
        l.duration = d.Timestamp - a.Timestamp ∧ l.mode = Mode.walk) ↔
      (a.Event = EventKind.arrival ∧ d.Event = EventKind.departure ∧
       d.StopId ≠ a.StopId ∧
       ∃ ra rb, List.lookup a.StopId stop_info = some ra ∧
         List.lookup d.StopId stop_info = some rb ∧
         hav ra.Lat ra.Lng rb.Lat rb.Lng ≤ CONFIG.WALKING_RADIUS ∧
         (∀ rt ∈ ra.Routes, rt ∉ rb.Routes) ∧
         (a.Timestamp : ℚ) + hav ra.Lat ra.Lng rb.Lat rb.Lng / CONFIG.WALKING_SPEED ≤
           (d.Timestamp : ℚ) ∧
         ((d.Timestamp - a.Timestamp : ℤ) : ℚ) ≤ CONFIG.MAX_WALK_WAIT_TIME) := by
  rw [append_walk_links] at hok
  have hcontent := walkGo_ok_content hav CONFIG stop_info (nodes.filter Node.isDeparture)
    (nodes.filter Node.isArrival) start_link_id file [] content next_id hok
  have hdrop : content.drop file.length =
      (numberLinks start_link_id ((nodes.filter Node.isArrival).flatMap (fun x =>
        (walkLinksForArrival hav CONFIG stop_info (nodes.filter Node.isDeparture) x).getD
          []))).1 := by
    rw [hcontent]
    simp only [List.append_nil]
    exact List.drop_left _ _
  rw [hdrop]
  constructor
  · rintro ⟨l, hl, hfrom, hto, hdur, hmode⟩
    have hr := mem_numberLinks_raw hl
    rw [List.mem_flatMap] at hr
    obtain ⟨a1, ha1, hr⟩ := hr
    rw [List.mem_filter] at ha1
    obtain ⟨ha1n, ha1ev⟩ := ha1
    cases hlc : List.lookup a1.StopId stop_info with
    | none =>
      rw [walkLinksForArrival, hlc] at hr
      simp at hr
    | some center =>
      rw [mem_walkLinksForArrival hlc] at hr
      obtain ⟨p, hp, hne, hrad, hdisj, d1, hd1, hdstop, hwin1, hwin2, hreq⟩ := hr
      rw [List.mem_filter] at hd1
      obtain ⟨hd1n, hd1ev⟩ := hd1
      injection hreq with h1 h2 h3 h4
      have hea : a1 = a := List.inj_on_of_nodup_map hnodup ha1n ha (by rw [← h1, hfrom])
      have hed : d1 = d := List.inj_on_of_nodup_map hnodup hd1n hd (by rw [← h2, hto])
      subst hea
      subst hed
      have hlb : List.lookup d1.StopId stop_info = some p.2 :=
        mem_lookup_of_nodup hkeys (by rw [hdstop]; exact hp)
      have hlp : List.lookup p.1 stop_info = some p.2 := by rw [← hdstop]; exact hlb
      refine ⟨isArrival_iff.mp ha1ev, isDeparture_iff.mp hd1ev, by rw [hdstop]; exact hne,
        center, p.2, hlc, hlb, hrad, ?_, hwin1, hwin2⟩
      intro rt hrt
      have h5 := hdisj rt (by rw [stop_routes, hlc]; simpa using hrt)
      rw [stop_routes, hlp] at h5
      simpa using h5
  · rintro ⟨haev, hdev, hne, ra, rb, hla, hlb, hrad, hdisj, hwin1, hwin2⟩
    have hr : (⟨a.NodeId, d.NodeId, d.Timestamp - a.Timestamp, Mode.walk⟩ : RawLink) ∈
        (nodes.filter Node.isArrival).flatMap (fun x =>
          (walkLinksForArrival hav CONFIG stop_info (nodes.filter Node.isDeparture) x).getD
            []) := by
      rw [List.mem_flatMap]
      refine ⟨a, List.mem_filter.mpr ⟨ha, isArrival_iff.mpr haev⟩, ?_⟩
      rw [mem_walkLinksForArrival hla]
      refine ⟨(d.StopId, rb), lookup_mem hlb, hne, hrad, ?_, d,
        List.mem_filter.mpr ⟨hd, isDeparture_iff.mpr hdev⟩, rfl, hwin1, hwin2, rfl⟩
      intro rt hrt
      rw [stop_routes, hla] at hrt
      have := hdisj rt (by simpa using hrt)
      rw [stop_routes, hlb]
      simpa using this
    obtain ⟨l, hl, hp1, hp2, hp3, hp4⟩ :=
      @numberLinks_exists_of_raw start_link_id _ _ hr
    exact ⟨l, hl, hp1, hp2, hp3, hp4⟩

/-- Haversine instantiation for inputs whose stops all share one
coordinate pair: the haversine of two identical points is exactly 0
(`dlat = dlon = 0`, so `a = 0` and `c = 0`, even in floating point). -/
def havZero : ℚ → ℚ → ℚ → ℚ → ℚ := fun _ _ _ _ => 0

/-- Two stops at identical coordinates served by disjoint route sets. -/
def walkStopInfo : List (ℤ × StopRec) :=
  [(1, ⟨10, 106, [10]⟩), (2, ⟨10, 106, [20]⟩)]

/-- An ARRIVAL at stop 1 and a DEPARTURE at stop 2 at the very same
second, t = 1000. -/
def walkNodes : List Node :=
  [⟨1, 10, 1, 1, 1000, .arrival⟩,
   ⟨2, 20, 3, 2, 1000, .departure⟩]

/-- Witness for `walk_link_emitted_iff`: at the identical-coordinates
fixture the right-hand side holds, so the walk link (from node 1 to
node 2, duration 0) is emitted. -/
theorem walk_link_emitted_iff_witness :
    ∃ l ∈ ([⟨1, 1, 2, 0, Mode.walk⟩] : List Link).drop ([] : List Link).length,
      l.from_node = (1 : ℤ) ∧ l.to_node = (2 : ℤ) ∧ l.duration = (0 : ℤ) ∧
      l.mode = Mode.walk :=
  (walk_link_emitted_iff havZero defaultCONFIG walkStopInfo walkNodes 1 []
    [⟨1, 1, 2, 0, Mode.walk⟩] 2
    (by norm_num [append_walk_links, walkGo, walkLinksForArrival,
      find_stops_within_radius, stop_routes, sortByTimestamp, List.insertionSort,
      List.orderedInsert, pushRaws, flushPush, walkStopInfo, walkNodes, havZero,
      defaultCONFIG, List.lookup, List.filter, List.filterMap, Node.isArrival,
      Node.isDeparture])
    (by decide) (by decide)
    ⟨1, 10, 1, 1, 1000, .arrival⟩ ⟨2, 20, 3, 2, 1000, .departure⟩
    (by decide) (by decide)).mpr
    ⟨rfl, rfl, by decide, ⟨10, 106, [10]⟩, ⟨10, 106, [20]⟩, by decide, by decide,
      by norm_num [havZero, defaultCONFIG], by decide,
      by norm_num [havZero, defaultCONFIG], by norm_num [defaultCONFIG]⟩

/-! ## Claim C6 -/

/-- C6 counterexample: a walk link with duration 0 is emitted.  Stops 1
and 2 share coordinates (haversine 0, hence walk time 0), their route
sets are disjoint, and stop 2 has a departure at exactly the arrival's
timestamp; the builder pairs them with `duration = 0`, which is not
strictly positive. -/
theorem walk_link_zero_duration :
    append_walk_links havZero defaultCONFIG walkStopInfo walkNodes 1 [] =
      .ok ([⟨1, 1, 2, 0, Mode.walk⟩], 2) := by
  norm_num [append_walk_links, walkGo, walkLinksForArrival, find_stops_within_radius,
    stop_routes, sortByTimestamp, List.insertionSort, List.orderedInsert, pushRaws,
    flushPush, walkStopInfo, walkNodes, havZero, defaultCONFIG, List.lookup,
    List.filter, List.filterMap, Node.isArrival, Node.isDeparture]

/-- C6 (amended): every bus, wait and transfer link has strictly
positive duration; every walk link has nonnegative duration, and the
duration can be exactly 0 when the walk time is 0 and a departure
coincides with the arrival's timestamp (see
`walk_link_zero_duration`). -/
theorem link_duration_bounds (hav : ℚ → ℚ → ℚ → ℚ → ℚ) (CONFIG : Config)
    (stop_info : List (ℤ × StopRec)) (nodes : List Node)
    (start_link_id walk_start_id : ℤ) (file content : List Link) (next_id : ℤ)
    (hok : append_walk_links hav CONFIG stop_info nodes walk_start_id file =
      .ok (content, next_id))
    (hhav : ∀ x1 y1 x2 y2, 0 ≤ hav x1 y1 x2 y2)
    (hspeed : 0 < CONFIG.WALKING_SPEED) :
    (∀ l ∈ (create_bus_links nodes start_link_id).1, 0 < l.duration) ∧
    (∀ l ∈ (append_wait_links nodes start_link_id).1, 0 < l.duration) ∧
    (∀ l ∈ (append_transfer_links CONFIG nodes start_link_id).1, 0 < l.duration) ∧
    (∀ l ∈ content.drop file.length, 0 ≤ l.duration) := by
  refine ⟨?_, ?_, ?_, ?_⟩
  · intro l hl
    obtain ⟨dep, -, arr, -, -, -, -, -, hlt, -, hreq, -⟩ :=
      mem_rawBusLinks_sound (mem_numberLinks_raw hl)
    injection hreq with h1 h2 h3 h4
    omega
  · intro l hl
    have hr := mem_numberLinks_raw hl
    rw [mem_rawWaitLinks] at hr
    obtain ⟨a, -, d, -, -, -, -, -, hlt, hreq⟩ := hr
    injection hreq with h1 h2 h3 h4
    omega
  · intro l hl
    have hr := mem_numberLinks_raw hl
    rw [mem_rawTransferLinks] at hr
    obtain ⟨a, -, d, -, -, -, -, -, hlt, -, -, hreq⟩ := hr
    injection hreq with h1 h2 h3 h4
    omega
  · rw [append_walk_links] at hok
    have hcontent := walkGo_ok_content hav CONFIG stop_info
      (nodes.filter Node.isDeparture) (nodes.filter Node.isArrival)
      walk_start_id file [] content next_id hok
    have hdrop : content.drop file.length =
        (numberLinks walk_start_id ((nodes.filter Node.isArrival).flatMap (fun x =>
          (walkLinksForArrival hav CONFIG stop_info (nodes.filter Node.isDeparture) x).getD
            []))).1 := by
      rw [hcontent]
      simp only [List.append_nil]
      exact List.drop_left _ _
    rw [hdrop]
    intro l hl
    have hr := mem_numberLinks_raw hl
    rw [List.mem_flatMap] at hr
    obtain ⟨a1, -, hr⟩ := hr
    cases hlc : List.lookup a1.StopId stop_info with
    | none =>
      rw [walkLinksForArrival, hlc] at hr
      simp at hr
    | some center =>
      rw [mem_walkLinksForArrival hlc] at hr
      obtain ⟨p, -, -, -, -, d1, -, -, hwin1, -, hreq⟩ := hr
      have hd0 : (0:ℚ) ≤ hav center.Lat center.Lng p.2.Lat p.2.Lng / CONFIG.WALKING_SPEED :=
        div_nonneg (hhav _ _ _ _) hspeed.le
      have hle : (a1.Timestamp : ℚ) ≤ (d1.Timestamp : ℚ) :=
        le_trans (le_add_of_nonneg_right hd0) hwin1
      have hle2 : a1.Timestamp ≤ d1.Timestamp := by exact_mod_cast hle
      injection hreq with h1 h2 h3 h4
      omega

/-- Witness for `link_duration_bounds` at the identical-coordinates
fixture (where the walk link's duration is exactly 0). -/
theorem link_duration_bounds_witness :
    (∀ l ∈ (create_bus_links walkNodes 1).1, 0 < l.duration) ∧
    (∀ l ∈ (append_wait_links walkNodes 1).1, 0 < l.duration) ∧
    (∀ l ∈ (append_transfer_links defaultCONFIG walkNodes 1).1, 0 < l.duration) ∧
    (∀ l ∈ ([⟨1, 1, 2, 0, Mode.walk⟩] : List Link).drop ([] : List Link).length,
      0 ≤ l.duration) :=
  link_duration_bounds havZero defaultCONFIG walkStopInfo walkNodes 1 1 []
    [⟨1, 1, 2, 0, Mode.walk⟩] 2
    (by norm_num [append_walk_links, walkGo, walkLinksForArrival,
      find_stops_within_radius, stop_routes, sortByTimestamp, List.insertionSort,
      List.orderedInsert, pushRaws, flushPush, walkStopInfo, walkNodes, havZero,
      defaultCONFIG, List.lookup, List.filter, List.filterMap, Node.isArrival,
      Node.isDeparture])
    (fun _ _ _ _ => by norm_num [havZero]) (by norm_num [defaultCONFIG])

deriving instance DecidableEq for Except

theorem walkLinksForArrival_none {hav : ℚ → ℚ → ℚ → ℚ → ℚ} {CONFIG : Config}
    {stop_info : List (ℤ × StopRec)} {all_departures : List Node} {arrival : Node}
    (h : List.lookup arrival.StopId stop_info = none) :
    walkLinksForArrival hav CONFIG stop_info all_departures arrival = none := by
  rw [walkLinksForArrival, h]

theorem walkLinksForArrival_isSome {hav : ℚ → ℚ → ℚ → ℚ → ℚ} {CONFIG : Config}
    {stop_info : List (ℤ × StopRec)} {all_departures : List Node} {arrival : Node}
    (h : (List.lookup arrival.StopId stop_info).isSome = true) :
    ∃ raws, walkLinksForArrival hav CONFIG stop_info all_departures arrival = some raws := by
  obtain ⟨center, hc⟩ := Option.isSome_iff_exists.mp h
  rw [walkLinksForArrival, hc]
  exact ⟨_, rfl⟩

theorem walkGo_ok_exists (hav : ℚ → ℚ → ℚ → ℚ → ℚ) (CONFIG : Config)
    (stop_info : List (ℤ × StopRec)) (all_departures : List Node) :
    ∀ (arrs : List Node) (link_id : ℤ) (file buffer : List Link),
      (∀ a ∈ arrs, ∃ raws,
        walkLinksForArrival hav CONFIG stop_info all_departures a = some raws) →
      ∃ content next_id,
        walkGo hav CONFIG stop_info all_departures arrs link_id file buffer =
          .ok (content, next_id) := by
  intro arrs
  induction arrs with
  | nil => intro link_id file buffer _; exact ⟨file ++ buffer, link_id, rfl⟩
  | cons a rest ih =>
    intro link_id file buffer h
    obtain ⟨raws, hraws⟩ := h a (List.mem_cons_self _ _)
    simp only [walkGo, hraws]
    exact ih _ _ _ (fun b hb => h b (List.mem_cons_of_mem _ hb))

/-! ## Claim C9 -/

/-- A deliberately invalid configuration:
`MAX_TRANSFER_TIME = 100 < 120 = MIN_TRANSFER_TIME`. -/
def badCONFIG : Config :=
  { WALKING_RADIUS := 400
    MAX_WALK_WAIT_TIME := 3600
    WALKING_SPEED := 6/5
    MAX_TRANSFER_TIME := 100
    MIN_TRANSFER_TIME := 120 }

/-- Stop table for the section-8 scenario: stops 1, 2, 3, all served by
route 10 alone, all at one coordinate pair. -/
def scenarioStopInfo : List (ℤ × StopRec) :=
  [(1, ⟨10, 106, [10]⟩), (2, ⟨10, 106, [10]⟩), (3, ⟨10, 106, [10]⟩)]

/-- C9 counterexample: run with `MAX_TRANSFER_TIME < MIN_TRANSFER_TIME`
the link generator does not fail at startup; it builds and emits links
(two bus links and a wait link here) and completes normally.  No
configuration validation exists in `link_generator.py`; `validate_config`
lives in `config.py`, which the link generator never imports. -/
theorem invalid_config_builds_links :
    create_link_table havZero badCONFIG scenarioStopInfo scenarioNodes =
      .ok [⟨1, 1, 2, 270, Mode.bus⟩, ⟨2, 3, 4, 270, Mode.bus⟩, ⟨3, 2, 3, 30, Mode.wait⟩] := by
  decide

/-- C9 (amended): the link generator performs no configuration
validation.  Under `MAX_TRANSFER_TIME < MIN_TRANSFER_TIME` it proceeds:
the transfer class is empty (the window is unsatisfiable) and, whenever
every arrival's stop is present in `stop_info`, the whole pipeline
completes and returns its link table. -/
theorem no_startup_config_validation (hav : ℚ → ℚ → ℚ → ℚ → ℚ) (CONFIG : Config)
    (stop_info : List (ℤ × StopRec)) (nodes : List Node)
    (hinv : CONFIG.MAX_TRANSFER_TIME < CONFIG.MIN_TRANSFER_TIME)
    (hcover : ∀ a ∈ nodes, a.Event = EventKind.arrival →
      (List.lookup a.StopId stop_info).isSome = true) :
    rawTransferLinks CONFIG nodes = [] ∧
    ∃ links, create_link_table hav CONFIG stop_info nodes = .ok links := by
  constructor
  · rw [List.eq_nil_iff_forall_not_mem]
    intro r hr
    rw [mem_rawTransferLinks] at hr
    obtain ⟨a, -, d, -, -, -, -, -, -, hmax, hmin, -⟩ := hr
    exact absurd (lt_of_le_of_lt (le_trans hmin hmax) hinv) (lt_irrefl _)
  · obtain ⟨content, next_id, hwg⟩ := walkGo_ok_exists hav CONFIG stop_info
      (nodes.filter Node.isDeparture) (nodes.filter Node.isArrival)
      (append_transfer_links CONFIG nodes
        (append_wait_links nodes (create_bus_links nodes 1).2).2).2
      ((create_bus_links nodes 1).1 ++
        (append_wait_links nodes (create_bus_links nodes 1).2).1 ++
        (append_transfer_links CONFIG nodes
          (append_wait_links nodes (create_bus_links nodes 1).2).2).1) []
      (by
        intro a ha
        rw [List.mem_filter] at ha
        exact walkLinksForArrival_isSome (hcover a ha.1 (isArrival_iff.mp ha.2)))
    refine ⟨content, ?_⟩
    rw [create_link_table, append_walk_links]
    rw [hwg]

/-- Witness for `no_startup_config_validation` at the invalid-config
fixture. -/
theorem no_startup_config_validation_witness :
    rawTransferLinks badCONFIG scenarioNodes = [] ∧
    ∃ links, create_link_table havZero badCONFIG scenarioStopInfo scenarioNodes =
      .ok links :=
  no_startup_config_validation havZero badCONFIG scenarioStopInfo scenarioNodes
    (by norm_num [badCONFIG]) (by decide)

/-! ## Claim C10 -/

/-- Stop table missing stop 3, at which the scenario has an ARRIVAL. -/
def scenarioStopInfoMissing : List (ℤ × StopRec) :=
  [(1, ⟨10, 106, [10]⟩), (2, ⟨10, 106, [10]⟩)]

/-- C10: the walk-link builder's unguarded `stop_info[...]` lookup is an
implicit precondition: whenever some ARRIVAL's `StopId` is absent from
`stop_info`, the pipeline aborts with an error, and the output file at
that moment already holds all bus, wait and transfer links (plus any
walk chunks flushed before the failure) — there is no atomicity. -/
theorem walk_missing_stop_aborts (hav : ℚ → ℚ → ℚ → ℚ → ℚ) (CONFIG : Config)
    (stop_info : List (ℤ × StopRec)) (nodes : List Node) (a : Node)
    (ha : a ∈ nodes) (haev : a.Event = EventKind.arrival)
    (hmiss : List.lookup a.StopId stop_info = none) :
    ∃ written msg rest,
      create_link_table hav CONFIG stop_info nodes = .error (written, msg) ∧
      written = (create_bus_links nodes 1).1 ++
        (append_wait_links nodes (create_bus_links nodes 1).2).1 ++
        (append_transfer_links CONFIG nodes
          (append_wait_links nodes (create_bus_links nodes 1).2).2).1 ++ rest := by
  obtain ⟨w, msg, hwg⟩ := walkGo_error_of_missing hav CONFIG stop_info
    (nodes.filter Node.isDeparture) (nodes.filter Node.isArrival)
    (append_transfer_links CONFIG nodes
      (append_wait_links nodes (create_bus_links nodes 1).2).2).2
    ((create_bus_links nodes 1).1 ++
      (append_wait_links nodes (create_bus_links nodes 1).2).1 ++
      (append_transfer_links CONFIG nodes
        (append_wait_links nodes (create_bus_links nodes 1).2).2).1) [] a
    (List.mem_filter.mpr ⟨ha, isArrival_iff.mpr haev⟩)
    (walkLinksForArrival_none hmiss)
  obtain ⟨ext, hext⟩ := walkGo_error_extends hav CONFIG stop_info
    (nodes.filter Node.isDeparture) _ _ _ _ _ _ hwg
  refine ⟨w, msg, ext, ?_, by rw [hext, List.append_assoc]⟩
  rw [create_link_table, append_walk_links]
  rw [hwg]

/-- Witness for `walk_missing_stop_aborts`: the scenario input withstop
3 absent from the stop table aborts after the bus and wait links are on
disk. -/
theorem walk_missing_stop_aborts_witness :
    ∃ written msg rest,
      create_link_table havZero defaultCONFIG scenarioStopInfoMissing scenarioNodes =
        .error (written, msg) ∧
      written = (create_bus_links scenarioNodes 1).1 ++
        (append_wait_links scenarioNodes (create_bus_links scenarioNodes 1).2).1 ++
        (append_transfer_links defaultCONFIG scenarioNodes
          (append_wait_links scenarioNodes (create_bus_links scenarioNodes 1).2).2).1 ++
        rest :=
  walk_missing_stop_aborts havZero defaultCONFIG scenarioStopInfoMissing scenarioNodes
    ⟨4, 10, 1, 3, 25770, .arrival⟩ (by decide) (by decide) (by decide)

/-! ## Trip expander lemmas -/

theorem pyRound_intCast (n : ℤ) : pyRound (n : ℚ) = n := by
  norm_num [pyRound, Int.floor_intCast]

theorem pyRound_add_int_of_even (q : ℚ) (n : ℤ) (hn : n % 2 = 0) :
    pyRound (q + (n : ℚ)) = pyRound q + n := by
  unfold pyRound
  rw [show ⌊q + (n : ℚ)⌋ = ⌊q⌋ + n from by exact_mod_cast Int.floor_add_int q n]
  rw [show q + (n : ℚ) - ((⌊q⌋ + n : ℤ) : ℚ) = q - ⌊q⌋ from by push_cast; ring]
  by_cases h1 : q - ⌊q⌋ < 1/2
  · rw [if_pos h1, if_pos h1]
  · rw [if_neg h1, if_neg h1]
    by_cases h2 : (1:ℚ)/2 < q - ⌊q⌋
    · rw [if_pos h2, if_pos h2]
      ring
    · rw [if_neg h2, if_neg h2]
      by_cases h3 : ⌊q⌋ % 2 = 0
      · rw [if_pos (by omega), if_pos h3]
      · rw [if_neg (by omega), if_neg h3]
        ring

/-- The interior chain emitted by `emitStops` always has the claimed
alternating shape with exact dwell separation, because the dwell is an
even integer and round-half-to-even commutes with adding an even
integer. -/
theorem interiorChain_emitStops (v : ℚ) (w : ℤ) (hw : w % 2 = 0) :
    ∀ (pairs : List (ℤ × ℚ)) (cur : ℚ), pairs ≠ [] →
      interiorChain w (pairs.map Prod.fst) (emitStops v w cur pairs) = true := by
  intro pairs
  induction pairs with
  | nil => intro cur h; exact absurd rfl h
  | cons p rest ih =>
    intro cur _
    obtain ⟨s, dist⟩ := p
    cases rest with
    | nil => simp [emitStops, interiorChain, mkEv]
    | cons q rest2 =>
      have hd : pyRound (cur + dist / v + (w : ℚ)) = pyRound (cur + dist / v) + w :=
        pyRound_add_int_of_even _ w hw
      simp only [emitStops, interiorChain, mkEv, List.map_cons, Bool.and_eq_true,
        beq_iff_eq]
      exact ⟨⟨⟨⟨⟨by trivial, by trivial⟩, by trivial⟩, by trivial⟩, hd⟩, by
        have := ih (cur + dist / v + (w : ℚ)) (by simp)
        simpa [Bool.and_eq_true] using this⟩

/-- The full event stream of a valid non-loop trip has the claimed
shape: one leading DEPARTURE at the first stop, then per interior stop
an ARRIVAL/DEPARTURE pair separated by exactly the dwell, and for the
terminal stop a single ARRIVAL. -/
theorem tripShape_emitTripEvents (v : ℚ) (w : ℤ) (hw : w % 2 = 0)
    (start_seconds end_seconds : ℤ) (stops : List ℤ) (dists : List ℚ)
    (hlen : stops.length = dists.length + 1) (h2 : 2 ≤ stops.length) :
    tripShape w stops (emitTripEvents false v w start_seconds end_seconds stops dists) =
      true := by
  cases stops with
  | nil => simp at h2
  | cons s0 rest =>
    have hr : rest ≠ [] := by
      cases rest with
      | nil => simp at h2
      | cons _ _ => simp
    have hzlen : (rest.zip dists).map Prod.fst = rest := by
      apply List.map_fst_zip
      simp at hlen
      omega
    have hznil : rest.zip dists ≠ [] := by
      cases rest with
      | nil => exact absurd rfl hr
      | cons r rs =>
        cases dists with
        | nil => simp at hlen
        | cons d ds => simp [List.zip]
    have hchain := interiorChain_emitStops v w hw (rest.zip dists) (start_seconds : ℚ) hznil
    rw [hzlen] at hchain
    simp [emitTripEvents, tripShape, mkEv, hchain]

theorem parse_time_to_seconds_next_day {endH endM e : ℤ}
    (hp : parse_time_to_seconds endH endM false = some e) :
    parse_time_to_seconds endH endM true = some (e + 86400) ∧ 0 ≤ e := by
  rw [parse_time_to_seconds] at hp
  by_cases hcond : (endH < 0 ∨ 23 < endH ∨ endM < 0 ∨ 59 < endM)
  · rw [if_pos hcond] at hp
    cases hp
  · rw [if_neg hcond, if_neg Bool.false_ne_true] at hp
    injection hp with he
    push_neg at hcond
    obtain ⟨c1, c2, c3, c4⟩ := hcond
    constructor
    · rw [parse_time_to_seconds, if_neg (by omega), if_pos rfl]
      congr 1
      omega
    · omega

/-! ## Claim C5 -/

/-- C5: every non-loop trip that passes validation and emits events has
the claimed stream shape: the first stop contributes only a DEPARTURE,
the last stop only an ARRIVAL, each interior stop an ARRIVAL followed by
a DEPARTURE, and each interior departure timestamp exceeds its arrival
timestamp by exactly the dwell resolved for the route's bus type
(`WAITING_TIME_BY_TYPE` lookup, default 30 s) — even though each
timestamp is rounded individually, because the resolved dwell is the
even integer 30 and round-half-to-even commutes with adding an even
integer. -/
theorem trip_event_stream_shape (bus_type : String) (stops : List ℤ) (dists : List ℚ)
    (start_seconds end_seconds : ℤ)
    (hlen : stops.length = dists.length + 1) (h2 : 2 ≤ stops.length)
    (hne : process_trip false (resolveWaitingTime bus_type) stops dists start_seconds
      end_seconds ≠ []) :
    tripShape (resolveWaitingTime bus_type) stops
      (process_trip false (resolveWaitingTime bus_type) stops dists start_seconds
        end_seconds) = true := by
  have hw : resolveWaitingTime bus_type % 2 = 0 := by
    have h : resolveWaitingTime bus_type = WAITING_TIME := rfl
    rw [h]
    decide
  simp only [process_trip] at hne ⊢
  split_ifs at hne ⊢ with h1 h3 h4
  · exact absurd rfl hne
  · exact absurd rfl hne
  · exact absurd rfl hne
  · exact tripShape_emitTripEvents _ _ hw _ _ stops dists hlen h2

/-- Witness for `trip_event_stream_shape`: the section-8 single-trip
line (three stops 1100 m apart, dwell 30 s, 07:00 to 07:10). -/
theorem trip_event_stream_shape_witness :
    tripShape (resolveWaitingTime "Unknown") [1, 2, 3]
      (process_trip false (resolveWaitingTime "Unknown") [1, 2, 3] [1100, 1100]
        25200 25800) = true :=
  trip_event_stream_shape "Unknown" [1, 2, 3] [1100, 1100] 25200 25800
    (by decide) (by decide)
    (by
      norm_num [process_trip, resolveWaitingTime, WAITING_TIME,
        WAITING_TIME_BY_TYPE, MIN_AVG_SPEED, List.lookup, emitTripEvents]
      exact List.cons_ne_nil _ _)

/-! ## Claim C7 -/

/-- C7: with positive traveling time, a trip whose average speed
`v = total_distance / traveling_time` is below `MIN_AVG_SPEED` or above
22.2 m/s is dropped with zero events emitted, while a trip with
`MIN_AVG_SPEED ≤ v ≤ 22.2` (both bounds inclusive — equality is kept)
proceeds to event emission using `v` itself, never a clamped value.
(22.2 is the literal `111/5`.) -/
theorem speed_filter (is_loop : Bool) (waiting_time : ℤ) (stops : List ℤ)
    (dists : List ℚ) (start_seconds end_seconds : ℤ) (v : ℚ)
    (hv : v = dists.sum /
      ((end_seconds - start_seconds - ((stops.length : ℤ) - 1) * waiting_time : ℤ) : ℚ))
    (htrav : 0 < end_seconds - start_seconds - ((stops.length : ℤ) - 1) * waiting_time) :
    ((v < MIN_AVG_SPEED ∨ (111/5 : ℚ) < v) →
      process_trip is_loop waiting_time stops dists start_seconds end_seconds = []) ∧
    (MIN_AVG_SPEED ≤ v ∧ v ≤ (111/5 : ℚ) →
      process_trip is_loop waiting_time stops dists start_seconds end_seconds =
        emitTripEvents is_loop v waiting_time start_seconds end_seconds stops dists) := by
  simp only [process_trip]
  rw [← hv]
  rw [if_neg (not_le.mpr htrav)]
  constructor
  · rintro (hlo | hhi)
    · rw [if_pos hlo]
    · by_cases hm : v < MIN_AVG_SPEED
      · rw [if_pos hm]
      · rw [if_neg hm, if_pos hhi]
  · rintro ⟨h1, h2⟩
    rw [if_neg (not_lt.mpr h1), if_neg (not_lt.mpr h2)]

/-- Witness for `speed_filter` at the exact upper boundary: total
distance 2220 m in 100 s of traveling time gives v = 22.2 m/s exactly,
and the trip is kept, not clamped. -/
theorem speed_filter_witness :
    process_trip false 30 [1, 2] [2220] 0 130 =
      emitTripEvents false (111/5) 30 0 130 [1, 2] [2220] :=
  (speed_filter false 30 [1, 2] [2220] 0 130 (111/5) (by norm_num) (by norm_num)).2
    ⟨by norm_num [MIN_AVG_SPEED], le_refl _⟩

/-! ## Claim C8 -/

/-- C8: whenever a trip's parsed end time does not exceed its parsed
start time, the end is reinterpreted by adding 86400 s before any
further validation; concretely, a 22:30 to 01:30 trip resolves to
end = 91800 with span 10800 s, and its emitted timestamps exceed 86400:
the final ARRIVAL of a two-stop realization is stamped 91770
(= end − dwell, since the terminal stop receives no dwell), which the
`Time` column renders with a next-day suffix, `"01:29:30+1d"`. -/
theorem overnight_reinterpretation :
    (∀ endH endM s e : ℤ, parse_time_to_seconds endH endM false = some e → e ≤ s →
      resolve_end_seconds s e endH endM = e + 86400) ∧
    resolve_end_seconds 81000 5400 1 30 - 81000 = 10800 ∧
    process_trip_full false 30 [1, 2] [50000] 22 30 1 30 =
      [⟨1, 81000, seconds_to_time 81000, .departure⟩,
       ⟨2, 91770, seconds_to_time 91770, .arrival⟩] ∧
    seconds_to_time 91770 = "01:29:30+1d" ∧ (86400 : ℤ) < 91770 := by
  refine ⟨?_, ?_, ?_, ?_, ?_⟩
  · intro endH endM s e hp hle
    obtain ⟨hnext, he0⟩ := parse_time_to_seconds_next_day hp
    rw [resolve_end_seconds, if_pos hle, hnext]
    show (if e + 86400 = 0 then e else e + 86400) = e + 86400
    rw [if_neg (by omega)]
  · decide
  · norm_num [process_trip_full, process_trip, resolve_end_seconds,
      parse_time_to_seconds, MIN_AVG_SPEED, emitTripEvents, emitStops, mkEv,
      pyRound, Int.floor_intCast]
  · decide
  · decide

/-- Witness for `overnight_reinterpretation` (its universally quantified
conjunct) at the 22:30 to 01:30 trip: end 5400 ≤ start 81000, so the end
is reinterpreted as 5400 + 86400. -/
theorem overnight_reinterpretation_witness :
    parse_time_to_seconds 1 30 false = some 5400 ∧ (5400 : ℤ) ≤ 81000 ∧
    resolve_end_seconds 81000 5400 1 30 = 5400 + 86400 :=
  ⟨by decide, by decide,
    overnight_reinterpretation.1 1 30 81000 5400 (by decide) (by decide)⟩
